import Mathlib

/-!
Shallow embedding of the round-robin scheduler from
src/scheduler/src/schedulers/round_robinn.rs.

Machine integers (Rust usize) are modelled as Nat; Rust subtraction on
usize panics on underflow, so every subtraction site from the source is
guarded and operations return Option, with none standing for a panic
(this also models the .expect / .unwrap calls on missing pids and on
NonZeroUsize::new(0)).  Pid is modelled as Nat and NonZeroUsize fields
as Nat (positivity is carried in hypotheses where a claim needs it).
-/

inductive ProcessState where
  | Ready
  | Running
  | Waiting (event : Option Nat)
deriving DecidableEq, Repr

/-- Per-process record, fields as in struct RoundRobinProcess.
timings is the Rust tuple (timings.0, timings.1, timings.2). -/
structure RoundRobinProcess where
  pid : Nat
  state : ProcessState
  priority : Int
  timings : Nat × Nat × Nat
  remaining : Nat
  sleep_time : Nat
  total_time : Nat
deriving DecidableEq, Repr

/-- RoundRobinProcess::new -/
def RoundRobinProcess.new (pid : Nat) (state : ProcessState) (priority : Int)
    (timings : Nat × Nat × Nat) (remaining : Nat) : RoundRobinProcess :=
  { pid := pid, state := state, priority := priority, timings := timings,
    remaining := remaining, sleep_time := 0, total_time := remaining }

inductive Syscall where
  | Fork (priority : Int)
  | Sleep (amount_of_time : Nat)
  | Wait (event_number : Nat)
  | Signal (event_number : Nat)
  | Exit
deriving DecidableEq, Repr

inductive StopReason where
  | Syscall (syscall : Syscall) (remaining : Nat)
  | Expired
deriving DecidableEq, Repr

inductive SchedulingDecision where
  | Run (pid : Nat) (timeslice : Nat)
  | Sleep (duration : Nat)
  | Done
  | Panic
deriving DecidableEq, Repr

inductive SyscallResult where
  | Success
  | Pid (pid : Nat)
deriving DecidableEq, Repr

/-- Scheduler state, fields as in struct RoundRobinScheduler.
VecDeque queues are lists with head = front. -/
structure RoundRobinScheduler where
  processes : List RoundRobinProcess
  ready_queue : List Nat
  sleep_queue : List Nat
  timeslice : Nat
  minimum_remaining_timeslice : Nat
  nr_processes : Nat
  time : Nat
deriving DecidableEq, Repr

/-- RoundRobinScheduler::new -/
def RoundRobinScheduler.new (timeslice : Nat) (minimum_remaining_timeslice : Nat) :
    RoundRobinScheduler :=
  { processes := [], ready_queue := [], sleep_queue := [],
    timeslice := timeslice, minimum_remaining_timeslice := minimum_remaining_timeslice,
    nr_processes := 0, time := 0 }

/-- self.processes.iter().position(|p| p.pid() == pid) followed by indexing:
returns the first record whose pid matches.  none models .expect panicking. -/
def findProc (ps : List RoundRobinProcess) (pid : Nat) : Option RoundRobinProcess :=
  match ps with
  | [] => none
  | p :: rest => if p.pid = pid then some p else findProc rest pid

/-- Mutation through the index found by position: replaces the first record
whose pid matches by f of it. -/
def updateProc (ps : List RoundRobinProcess) (pid : Nat)
    (f : RoundRobinProcess → RoundRobinProcess) : List RoundRobinProcess :=
  match ps with
  | [] => []
  | p :: rest => if p.pid = pid then f p :: rest else p :: updateProc rest pid f

/-- timings.0 += own remaining - reported remaining (loop body of the
Fork/Sleep branches, line 181 / 217). -/
def chargeSelfF (remaining : Nat) (q : RoundRobinProcess) : RoundRobinProcess :=
  { q with timings := (q.timings.1 + (q.remaining - remaining), q.timings.2.1, q.timings.2.2) }

/-- timings.0 += delta (loop body of the Exit/Expired branches,
line 255 / 287). -/
def chargeConstF (delta : Nat) (q : RoundRobinProcess) : RoundRobinProcess :=
  { q with timings := (q.timings.1 + delta, q.timings.2.1, q.timings.2.2) }

/-- Head-process charge of the Fork/Sleep branches (lines 171-173 / 207-209):
timings.0 += elapsed, timings.1 += 1, timings.2 += elapsed - 1. -/
def acctF (elapsed : Nat) (q : RoundRobinProcess) : RoundRobinProcess :=
  { q with timings := (q.timings.1 + elapsed, q.timings.2.1 + 1, q.timings.2.2 + (elapsed - 1)) }

/-- remaining := value (line 183 / 219 / 289). -/
def setRemainingF (remaining : Nat) (q : RoundRobinProcess) : RoundRobinProcess :=
  { q with remaining := remaining }

/-- set_state (lines 117, 121, 125, 135, 138). -/
def setStateF (st : ProcessState) (q : RoundRobinProcess) : RoundRobinProcess :=
  { q with state := st }

/-- Sleep-branch move (lines 227-229): sleep_time := amount,
state := Waiting { event: None }. -/
def sleepF (amount : Nat) (q : RoundRobinProcess) : RoundRobinProcess :=
  { q with sleep_time := amount, state := ProcessState.Waiting none }

/-- Wake-up restore at the ready-queue head (lines 110-114):
remaining := total_time, timings.0 += sleep_time, sleep_time := 0. -/
def wakeF (q : RoundRobinProcess) : RoundRobinProcess :=
  { q with remaining := q.total_time,
           timings := (q.timings.1 + q.sleep_time, q.timings.2.1, q.timings.2.2),
           sleep_time := 0 }

/-- Expired-branch head update (lines 266-278): state := Ready,
timings.2 += remaining, timings.0 += remaining. -/
def expiredF (rem : Nat) (q : RoundRobinProcess) : RoundRobinProcess :=
  { q with state := ProcessState.Ready,
           timings := (q.timings.1 + rem, q.timings.2.1, q.timings.2.2 + rem) }

/-- The for-loop of the Fork/Sleep branches of stop (lines 174-182 / 210-218):
for each pid in the queue slice, charge that process's own
remaining - reported-remaining into its timings.0.  The subtraction is the
Rust usize subtraction, so a process with remaining below the reported
value panics (none); a missing pid panics too. -/
def chargeOthersBySelf (remaining : Nat) :
    List RoundRobinProcess → List Nat → Option (List RoundRobinProcess)
  | ps, [] => some ps
  | ps, pid :: rest =>
    match findProc ps pid with
    | none => none
    | some p =>
      if remaining ≤ p.remaining then
        chargeOthersBySelf remaining (updateProc ps pid (chargeSelfF remaining)) rest
      else none

/-- The for-loops of the Exit/Expired branches of stop (lines 248-256 / 280-288):
for each pid in the queue slice, add the constant delta (computed from the
stopped head process) into that process's timings.0.  A missing pid panics. -/
def chargeOthersConst (delta : Nat) :
    List RoundRobinProcess → List Nat → Option (List RoundRobinProcess)
  | ps, [] => some ps
  | ps, pid :: rest =>
    match findProc ps pid with
    | none => none
    | some _ =>
      chargeOthersConst delta (updateProc ps pid (chargeConstF delta)) rest

/-- Lines 163-184 of the Fork branch, identical to lines 199-220 of the Sleep
branch: if the ready queue is non-empty, charge the head process
(time, timings.0 += elapsed, timings.1 += 1, timings.2 += elapsed - 1),
charge every other queued process via chargeOthersBySelf, then store the
reported remaining into the head.  elapsed = head.remaining - remaining;
both usize subtractions can panic (none). -/
def syscallAccounting (s : RoundRobinScheduler) (remaining : Nat) :
    Option RoundRobinScheduler :=
  match s.ready_queue with
  | [] => some s
  | pid :: rest =>
    match findProc s.processes pid with
    | none => none
    | some p =>
      if remaining ≤ p.remaining then
        if 1 ≤ p.remaining - remaining then
          match chargeOthersBySelf remaining
              (updateProc s.processes pid (acctF (p.remaining - remaining))) rest with
          | none => none
          | some ps2 =>
            some { s with
              processes := updateProc ps2 pid (setRemainingF remaining),
              time := s.time + (p.remaining - remaining) }
        else none
      else none

/-- fn stop, lines 158-295. -/
def RoundRobinScheduler.stop (s : RoundRobinScheduler) (reason : StopReason) :
    Option (SyscallResult × RoundRobinScheduler) :=
  match reason with
  | StopReason.Syscall syscall remaining =>
    match syscall with
    | Syscall.Fork process_priority =>
      match syscallAccounting s remaining with
      | none => none
      | some s1 =>
        some (SyscallResult.Pid (s1.nr_processes + 1),
          { s1 with
            processes := s1.processes ++
              [RoundRobinProcess.new (s1.nr_processes + 1) ProcessState.Ready
                process_priority (0, 0, 0) s1.timeslice],
            ready_queue := s1.ready_queue ++ [s1.nr_processes + 1],
            nr_processes := s1.nr_processes + 1 })
    | Syscall.Sleep amount_of_time =>
      match syscallAccounting s remaining with
      | none => none
      | some s1 =>
        match s1.ready_queue with
        | [] => some (SyscallResult.Success, s1)
        | pid :: rest =>
          match findProc s1.processes pid with
          | none => none
          | some _ =>
            some (SyscallResult.Success,
              { s1 with
                processes := updateProc s1.processes pid (sleepF amount_of_time),
                ready_queue := rest,
                sleep_queue := s1.sleep_queue ++ [pid] })
    | Syscall.Wait _ => some (SyscallResult.Success, s)
    | Syscall.Signal _ => some (SyscallResult.Success, s)
    | Syscall.Exit =>
      match s.ready_queue with
      | [] => some (SyscallResult.Success, s)
      | pid :: rest =>
        match findProc s.processes pid with
        | none => none
        | some p =>
          if remaining ≤ p.remaining then
            match chargeOthersConst (p.remaining - remaining) s.processes rest with
            | none => none
            | some ps2 =>
              some (SyscallResult.Success,
                { s with
                  processes := ps2.filter fun q => q.pid ≠ pid,
                  ready_queue := rest,
                  time := s.time + (p.remaining - remaining) })
          else none
  | StopReason.Expired =>
    match s.ready_queue with
    | [] => some (SyscallResult.Success, s)
    | pid :: rest =>
      match findProc s.processes pid with
      | none => none
      | some p =>
        match chargeOthersConst p.remaining
            (updateProc s.processes pid (expiredF p.remaining)) rest with
        | none => none
        | some ps2 =>
          some (SyscallResult.Success,
            { s with
              processes := updateProc ps2 pid (setRemainingF s.timeslice),
              ready_queue := rest ++ [pid],
              time := s.time + p.remaining })

/-- Second-candidate block of fn next, lines 127-143: after the head was
rotated (pushed to the back while also re-pushed to the front), the queue
head is popped again - it is the same pid - and is granted the CPU with no
minimum-timeslice check: its remaining if positive, else the full
configured timeslice.  ps2 is the process list after the rotation updates;
the resulting ready queue is (pid :: rest) ++ [pid]. -/
def nextSecond (s : RoundRobinScheduler) (pid : Nat) (rest : List Nat)
    (ps2 : List RoundRobinProcess) : Option (SchedulingDecision × RoundRobinScheduler) :=
  match findProc ps2 pid with
  | none => none
  | some p2 =>
    if 0 < p2.remaining then
      some (SchedulingDecision.Run pid p2.remaining,
        { s with
          processes := updateProc ps2 pid (setStateF ProcessState.Running),
          ready_queue := (pid :: rest) ++ [pid] })
    else
      some (SchedulingDecision.Run pid s.timeslice,
        { s with
          processes := updateProc ps2 pid (setStateF ProcessState.Running),
          ready_queue := (pid :: rest) ++ [pid] })

/-- First-candidate block of fn next, lines 115-126, applied after the
wake-up restore: grant the head its remaining when it is positive and at
least minimum_remaining_timeslice, otherwise mark it Ready, push it to the
back as well, and fall through to the second-candidate block. -/
def nextRun (s : RoundRobinScheduler) (pid : Nat) (rest : List Nat)
    (ps1 : List RoundRobinProcess) : Option (SchedulingDecision × RoundRobinScheduler) :=
  match findProc ps1 pid with
  | none => none
  | some p =>
    if 0 < p.remaining ∧ s.minimum_remaining_timeslice ≤ p.remaining then
      some (SchedulingDecision.Run pid p.remaining,
        { s with
          processes := updateProc ps1 pid (setStateF ProcessState.Running) })
    else
      nextSecond s pid rest (updateProc ps1 pid (setStateF ProcessState.Ready))

/-- fn next, lines 83-156. -/
def RoundRobinScheduler.next (s : RoundRobinScheduler) :
    Option (SchedulingDecision × RoundRobinScheduler) :=
  if 0 < s.ready_queue.length ∧ s.ready_queue.count 1 + s.sleep_queue.count 1 = 0 then
    some (SchedulingDecision.Panic,
      { s with processes := s.processes.map (setStateF ProcessState.Ready) })
  else
    match s.ready_queue with
    | pid :: rest =>
      match findProc s.processes pid with
      | none => none
      | some p0 =>
        nextRun s pid rest
          (if 0 < p0.sleep_time then updateProc s.processes pid wakeF
           else s.processes)
    | [] =>
      match s.sleep_queue with
      | pid :: srest =>
        match findProc s.processes pid with
        | none => none
        | some p =>
          if 0 < p.sleep_time then
            some (SchedulingDecision.Sleep p.sleep_time,
              { s with ready_queue := [pid], sleep_queue := srest })
          else none
      | [] => some (SchedulingDecision.Done, s)

/-! ### Concrete states used by counterexamples and code-bug evaluations -/

/-- Two ready processes: pid 1 running at the head with remaining 5,
pid 2 ready with remaining 3. -/
def c1S : RoundRobinScheduler :=
  { processes := [⟨1, .Running, 0, (0, 0, 0), 5, 0, 5⟩, ⟨2, .Ready, 0, (0, 0, 0), 3, 0, 3⟩],
    ready_queue := [1, 2], sleep_queue := [], timeslice := 5,
    minimum_remaining_timeslice := 1, nr_processes := 2, time := 0 }

/-- C1 (counterexample): at c1S, stop(Syscall{Fork(0), remaining = 2}) has
elapsed = 5 - 2 = 3, but the running process's execution accumulator
(timings.2) gains only 2 = elapsed - 1, the other ready process's waiting
accumulator gains 1 = its own remaining minus the reported remaining rather
than elapsed = 3, and a Wait syscall performs no accounting at all even
though elapsed is 3.  This refutes the claim that elapsed is added to the
execution accumulator and to every other ready process's waiting
accumulator for every syscall variant. -/
theorem c1_counterexample :
    (RoundRobinScheduler.stop c1S (.Syscall (.Fork 0) 2)).bind
        (fun r => findProc r.2.processes 1) =
      some ⟨1, .Running, 0, (3, 1, 2), 2, 0, 5⟩
    ∧ (RoundRobinScheduler.stop c1S (.Syscall (.Fork 0) 2)).bind
        (fun r => findProc r.2.processes 2) =
      some ⟨2, .Ready, 0, (1, 0, 0), 3, 0, 3⟩
    ∧ (5 - 2 : Nat) = 3 ∧ (2 : Nat) ≠ 3 ∧ (1 : Nat) ≠ 3
    ∧ RoundRobinScheduler.stop c1S (.Syscall (.Wait 4) 2) = some (.Success, c1S) := by
  decide

/-- Two ready processes under minimum_remaining_timeslice = 2: pid 1 has a
partial remaining of 1 (below the threshold), pid 2 has remaining 2. -/
def c2S : RoundRobinScheduler :=
  { processes := [⟨1, .Ready, 0, (0, 0, 0), 1, 0, 2⟩, ⟨2, .Ready, 0, (0, 0, 0), 2, 0, 2⟩],
    ready_queue := [1, 2], sleep_queue := [], timeslice := 2,
    minimum_remaining_timeslice := 2, nr_processes := 2, time := 0 }

/-- C2 (code bug, evaluation at the failing input): with pid 1 below the
minimum-remaining threshold and pid 2 at it, next() grants pid 1 its
below-threshold remaining of 1 instead of trying pid 2, and leaves pid 1
duplicated in the ready queue ([1, 2, 1]): the rotation pushes the rejected
head to the back without removing it from the front, and the second
candidate popped is the same process, granted with no threshold check. -/
theorem c2_code_bug_eval :
    RoundRobinScheduler.next c2S =
      some (.Run 1 1,
        { processes := [⟨1, .Running, 0, (0, 0, 0), 1, 0, 2⟩,
                        ⟨2, .Ready, 0, (0, 0, 0), 2, 0, 2⟩],
          ready_queue := [1, 2, 1], sleep_queue := [], timeslice := 2,
          minimum_remaining_timeslice := 2, nr_processes := 2, time := 0 })
    ∧ (1 : Nat) < 2 := by
  decide

/-- Same shape as c1S: pid 1 running at the head with remaining 5, pid 2
ready with remaining 3. -/
def c3S : RoundRobinScheduler :=
  { processes := [⟨1, .Running, 0, (0, 0, 0), 5, 0, 5⟩, ⟨2, .Ready, 0, (0, 0, 0), 3, 0, 3⟩],
    ready_queue := [1, 2], sleep_queue := [], timeslice := 5,
    minimum_remaining_timeslice := 1, nr_processes := 2, time := 0 }

/-- C3 (code bug, evaluation at the failing input): at c3S,
stop(Syscall{Sleep(7), remaining = 2}) has elapsed = 3 and ready-queue
length 2, so conservation demands a total waiting delta of 3 x 1 = 3 for
the other ready processes; the code charges pid 2 only
its own remaining - reported remaining = 1.  Global time does gain
elapsed = 3 here, but a Wait stop advances global time by 0. -/
theorem c3_code_bug_eval :
    (RoundRobinScheduler.stop c3S (.Syscall (.Sleep 7) 2)).map (fun r => r.2.time) = some 3
    ∧ (RoundRobinScheduler.stop c3S (.Syscall (.Sleep 7) 2)).bind
        (fun r => findProc r.2.processes 2) =
      some ⟨2, .Ready, 0, (1, 0, 0), 3, 0, 3⟩
    ∧ (1 : Nat) ≠ 3 * (2 - 1)
    ∧ RoundRobinScheduler.stop c3S (.Syscall (.Wait 0) 2) = some (.Success, c3S) := by
  decide

/-- A scheduler managing only pid 2, which sits alone in the ready queue;
no record or queue entry for Pid 1 exists. -/
def c4S : RoundRobinScheduler :=
  { processes := [⟨2, .Ready, 0, (0, 0, 0), 2, 0, 2⟩],
    ready_queue := [2], sleep_queue := [], timeslice := 2,
    minimum_remaining_timeslice := 1, nr_processes := 2, time := 0 }

/-- C4 (counterexample): at c4S the engine has NOT observed Pid 1 present
(no managed record has pid 1) and a runnable candidate structurally exists
(the ready queue is non-empty), yet next() returns Panic.  The actual
trigger is the absence of Pid 1 from both queues while the ready queue is
non-empty. -/
theorem c4_counterexample :
    RoundRobinScheduler.next c4S = some (.Panic, c4S)
    ∧ (∀ p ∈ c4S.processes, p.pid ≠ 1)
    ∧ c4S.ready_queue ≠ [] := by
  decide

/-- Two ready processes, pid 1 with remaining 0 at the head. -/
def c5S : RoundRobinScheduler :=
  { processes := [⟨1, .Ready, 0, (0, 0, 0), 0, 0, 2⟩, ⟨2, .Ready, 0, (0, 0, 0), 2, 0, 2⟩],
    ready_queue := [1, 2], sleep_queue := [], timeslice := 2,
    minimum_remaining_timeslice := 1, nr_processes := 2, time := 0 }

/-- State after next c5S: pid 1 was granted the full timeslice 2 by the
second-candidate path while its stored remaining stayed 0. -/
def c5S1 : RoundRobinScheduler :=
  { processes := [⟨1, .Running, 0, (0, 0, 0), 0, 0, 2⟩, ⟨2, .Ready, 0, (0, 0, 0), 2, 0, 2⟩],
    ready_queue := [1, 2, 1], sleep_queue := [], timeslice := 2,
    minimum_remaining_timeslice := 1, nr_processes := 2, time := 0 }

/-- C5 (counterexample): next grants pid 1 a timeslice of 2 (the full
configured quantum, since its stored remaining is 0), yet the following
stop(Expired) adds the stored remaining 0 - not the granted quantum 2 -
to global time and to the accumulators. -/
theorem c5_counterexample :
    RoundRobinScheduler.next c5S = some (.Run 1 2, c5S1)
    ∧ (RoundRobinScheduler.stop c5S1 .Expired).map (fun r => r.2.time) = some (c5S1.time + 0)
    ∧ (0 : Nat) ≠ 2 := by
  decide

/-- State reached from a fresh engine (timeslice 2, minimum 1) by
stop(Fork(0)), next, stop(Syscall{Sleep(5), remaining 0}), next: the Sleep
decision moved pid 1 from the sleep queue to the ready queue while its
sleep_time is still 5. -/
def c6S4 : RoundRobinScheduler :=
  { processes := [⟨1, .Waiting none, 0, (2, 1, 1), 0, 5, 2⟩],
    ready_queue := [1], sleep_queue := [], timeslice := 2,
    minimum_remaining_timeslice := 1, nr_processes := 1, time := 2 }

/-- C6 (counterexample): in the reachable state c6S4 - produced from a
freshly constructed engine by the call chain stop(Fork), next,
stop(Sleep 5), next - process 1 has sleep_time = 5 > 0 but is not in the
sleep queue, refuting the claimed iff. -/
theorem c6_counterexample :
    (RoundRobinScheduler.stop (RoundRobinScheduler.new 2 1) (.Syscall (.Fork 0) 0)).bind
        (fun r1 => (RoundRobinScheduler.next r1.2).bind fun r2 =>
          (RoundRobinScheduler.stop r2.2 (.Syscall (.Sleep 5) 0)).bind fun r3 =>
            RoundRobinScheduler.next r3.2) = some (.Sleep 5, c6S4)
    ∧ findProc c6S4.processes 1 = some ⟨1, .Waiting none, 0, (2, 1, 1), 0, 5, 2⟩
    ∧ (0 : Nat) < 5
    ∧ (1 : Nat) ∉ c6S4.sleep_queue := by
  decide

/-- C9 (counterexample): on a freshly constructed engine - no process was
ever granted the CPU - stop(Expired) and stop(Syscall{Exit}) return the
normal result Success with the state unchanged, and stop(Syscall{Fork})
returns a normal Pid result; none of them aborts. -/
theorem c9_counterexample :
    RoundRobinScheduler.stop (RoundRobinScheduler.new 2 1) .Expired =
      some (.Success, RoundRobinScheduler.new 2 1)
    ∧ RoundRobinScheduler.stop (RoundRobinScheduler.new 2 1) (.Syscall .Exit 0) =
      some (.Success, RoundRobinScheduler.new 2 1)
    ∧ (RoundRobinScheduler.stop (RoundRobinScheduler.new 2 1) (.Syscall (.Fork 0) 0)).isSome := by
  decide

/-! ### Helper lemmas about the process-list operations -/

lemma findProc_updateProc (ps : List RoundRobinProcess) (a b : Nat)
    (f : RoundRobinProcess → RoundRobinProcess) (hf : ∀ q, (f q).pid = q.pid) :
    findProc (updateProc ps a f) b =
      if b = a then (findProc ps a).map f else findProc ps b := by
  induction ps with
  | nil => simp [findProc, updateProc]
  | cons p rest ih =>
    by_cases hpa : p.pid = a
    · by_cases hba : b = a
      · subst hba
        simp [findProc, updateProc, hpa, hf]
      · have hpb : p.pid ≠ b := by
          intro h; exact hba (h ▸ hpa ▸ rfl)
        have hab : a ≠ b := fun h => hba h.symm
        simp [findProc, updateProc, hpa, hf, hpb, hba, hab]
    · by_cases hpb : p.pid = b
      · have hba : b ≠ a := by intro h; exact hpa (h ▸ hpb)
        simp [findProc, updateProc, hpa, hpb, hba]
      · simp [findProc, updateProc, hpa, hpb, ih]

lemma findProc_append (xs ys : List RoundRobinProcess) (b : Nat) :
    findProc (xs ++ ys) b =
      match findProc xs b with
      | some p => some p
      | none => findProc ys b := by
  induction xs with
  | nil => simp [findProc]
  | cons p rest ih =>
    by_cases hpb : p.pid = b
    · simp [findProc, hpb]
    · simp [findProc, hpb, ih]

lemma findProc_eq_none (ps : List RoundRobinProcess) (b : Nat)
    (h : ∀ p ∈ ps, p.pid ≠ b) : findProc ps b = none := by
  induction ps with
  | nil => rfl
  | cons p rest ih =>
    have hp : p.pid ≠ b := h p (List.mem_cons_self p rest)
    simp only [findProc, if_neg hp]
    exact ih (fun q hq => h q (List.mem_cons_of_mem p hq))

lemma updateProc_pidMap (ps : List RoundRobinProcess) (a : Nat)
    (f : RoundRobinProcess → RoundRobinProcess) (hf : ∀ q, (f q).pid = q.pid) :
    (updateProc ps a f).map (fun p => p.pid) = ps.map (fun p => p.pid) := by
  induction ps with
  | nil => rfl
  | cons p rest ih =>
    by_cases hpa : p.pid = a
    · simp [updateProc, hpa, hf]
    · simp [updateProc, hpa, ih]

lemma mem_updateProc (ps : List RoundRobinProcess) (a : Nat)
    (f : RoundRobinProcess → RoundRobinProcess) (q : RoundRobinProcess)
    (h : q ∈ updateProc ps a f) :
    q ∈ ps ∨ ∃ p, p ∈ ps ∧ p.pid = a ∧ q = f p := by
  induction ps with
  | nil => simp [updateProc] at h
  | cons p rest ih =>
    by_cases hpa : p.pid = a
    · simp only [updateProc, if_pos hpa] at h
      rcases List.mem_cons.mp h with h | h
      · exact Or.inr ⟨p, List.mem_cons_self p rest, hpa, h⟩
      · exact Or.inl (List.mem_cons_of_mem p h)
    · simp only [updateProc, if_neg hpa] at h
      rcases List.mem_cons.mp h with h | h
      · exact Or.inl (h ▸ List.mem_cons_self p rest)
      · rcases ih h with h | ⟨r, hr, hra, hq⟩
        · exact Or.inl (List.mem_cons_of_mem p h)
        · exact Or.inr ⟨r, List.mem_cons_of_mem p hr, hra, hq⟩

lemma chargeSelfF_pid (r : Nat) (q : RoundRobinProcess) : (chargeSelfF r q).pid = q.pid := rfl

lemma chargeConstF_pid (d : Nat) (q : RoundRobinProcess) : (chargeConstF d q).pid = q.pid := rfl

lemma chargeOthersBySelf_spec (r : Nat) (queue : List Nat) :
    ∀ ps ps2 : List RoundRobinProcess, queue.Nodup →
      chargeOthersBySelf r ps queue = some ps2 →
      (∀ b ∈ queue, ∃ p, findProc ps b = some p ∧ r ≤ p.remaining) ∧
      (∀ b p, findProc ps b = some p →
        findProc ps2 b = some (if b ∈ queue then chargeSelfF r p else p)) := by
  induction queue with
  | nil =>
    intro ps ps2 _ h
    simp only [chargeOthersBySelf, Option.some.injEq] at h
    subst h
    exact ⟨by simp, fun b p hb => by simpa using hb⟩
  | cons a rest ih =>
    intro ps ps2 hnd h
    obtain ⟨ha, hrest⟩ := List.nodup_cons.mp hnd
    simp only [chargeOthersBySelf] at h
    rcases hfa : findProc ps a with _ | p
    · simp only [hfa] at h
      exact absurd h (by simp)
    · simp only [hfa] at h
      by_cases hle : r ≤ p.remaining
      · rw [if_pos hle] at h
        obtain ⟨ih1, ih2⟩ := ih _ ps2 hrest h
        constructor
        · intro b hb
          rcases List.mem_cons.mp hb with hb | hb
          · exact ⟨p, hb ▸ hfa, hle⟩
          · have hba : b ≠ a := fun he => ha (he ▸ hb)
            obtain ⟨p1, hp1, hle1⟩ := ih1 b hb
            rw [findProc_updateProc ps a b (chargeSelfF r) (fun q => rfl), if_neg hba] at hp1
            exact ⟨p1, hp1, hle1⟩
        · intro b p' hfp
          by_cases hba : b = a
          · subst hba
            have hpp : p' = p := by
              rw [hfp] at hfa
              exact (Option.some.injEq _ _).mp hfa
            subst hpp
            have hup : findProc (updateProc ps b (chargeSelfF r)) b = some (chargeSelfF r p') := by
              rw [findProc_updateProc ps b b (chargeSelfF r) (fun q => rfl), if_pos rfl, hfp]
              rfl
            have hres := ih2 b _ hup
            rw [if_neg ha] at hres
            rw [hres]
            simp [List.mem_cons]
          · have hfp1 : findProc (updateProc ps a (chargeSelfF r)) b = some p' := by
              rw [findProc_updateProc ps a b (chargeSelfF r) (fun q => rfl), if_neg hba, hfp]
            have hres := ih2 b _ hfp1
            rw [hres]
            simp [List.mem_cons, hba]
      · rw [if_neg hle] at h
        exact absurd h (by simp)

lemma chargeOthersConst_spec (d : Nat) (queue : List Nat) :
    ∀ ps ps2 : List RoundRobinProcess, queue.Nodup →
      chargeOthersConst d ps queue = some ps2 →
      (∀ b ∈ queue, ∃ p, findProc ps b = some p) ∧
      (∀ b p, findProc ps b = some p →
        findProc ps2 b = some (if b ∈ queue then chargeConstF d p else p)) := by
  induction queue with
  | nil =>
    intro ps ps2 _ h
    simp only [chargeOthersConst, Option.some.injEq] at h
    subst h
    exact ⟨by simp, fun b p hb => by simpa using hb⟩
  | cons a rest ih =>
    intro ps ps2 hnd h
    obtain ⟨ha, hrest⟩ := List.nodup_cons.mp hnd
    simp only [chargeOthersConst] at h
    rcases hfa : findProc ps a with _ | p
    · simp only [hfa] at h
      exact absurd h (by simp)
    · simp only [hfa] at h
      obtain ⟨ih1, ih2⟩ := ih _ ps2 hrest h
      constructor
      · intro b hb
        rcases List.mem_cons.mp hb with hb | hb
        · exact ⟨p, hb ▸ hfa⟩
        · have hba : b ≠ a := fun he => ha (he ▸ hb)
          obtain ⟨p1, hp1⟩ := ih1 b hb
          rw [findProc_updateProc ps a b (chargeConstF d) (fun q => rfl), if_neg hba] at hp1
          exact ⟨p1, hp1⟩
      · intro b p' hfp
        by_cases hba : b = a
        · subst hba
          have hpp : p' = p := by
            rw [hfp] at hfa
            exact (Option.some.injEq _ _).mp hfa
          subst hpp
          have hup : findProc (updateProc ps b (chargeConstF d)) b = some (chargeConstF d p') := by
            rw [findProc_updateProc ps b b (chargeConstF d) (fun q => rfl), if_pos rfl, hfp]
            rfl
          have hres := ih2 b _ hup
          rw [if_neg ha] at hres
          rw [hres]
          simp [List.mem_cons]
        · have hfp1 : findProc (updateProc ps a (chargeConstF d)) b = some p' := by
            rw [findProc_updateProc ps a b (chargeConstF d) (fun q => rfl), if_neg hba, hfp]
          have hres := ih2 b _ hfp1
          rw [hres]
          simp [List.mem_cons, hba]

lemma chargeOthersBySelf_pidMap (r : Nat) (queue : List Nat) :
    ∀ ps ps2 : List RoundRobinProcess, chargeOthersBySelf r ps queue = some ps2 →
      ps2.map (fun p => p.pid) = ps.map (fun p => p.pid) := by
  induction queue with
  | nil =>
    intro ps ps2 h
    simp only [chargeOthersBySelf, Option.some.injEq] at h
    rw [h]
  | cons a rest ih =>
    intro ps ps2 h
    simp only [chargeOthersBySelf] at h
    rcases hfa : findProc ps a with _ | p
    · simp only [hfa] at h
      exact absurd h (by simp)
    · simp only [hfa] at h
      by_cases hle : r ≤ p.remaining
      · rw [if_pos hle] at h
        rw [ih _ ps2 h, updateProc_pidMap ps a (chargeSelfF r) (fun q => rfl)]
      · rw [if_neg hle] at h
        exact absurd h (by simp)

lemma chargeOthersConst_pidMap (d : Nat) (queue : List Nat) :
    ∀ ps ps2 : List RoundRobinProcess, chargeOthersConst d ps queue = some ps2 →
      ps2.map (fun p => p.pid) = ps.map (fun p => p.pid) := by
  induction queue with
  | nil =>
    intro ps ps2 h
    simp only [chargeOthersConst, Option.some.injEq] at h
    rw [h]
  | cons a rest ih =>
    intro ps ps2 h
    simp only [chargeOthersConst] at h
    rcases hfa : findProc ps a with _ | p
    · simp only [hfa] at h
      exact absurd h (by simp)
    · simp only [hfa] at h
      rw [ih _ ps2 h, updateProc_pidMap ps a (chargeConstF d) (fun q => rfl)]

lemma mem_updateProc_nt (ps : List RoundRobinProcess) (a : Nat)
    (f : RoundRobinProcess → RoundRobinProcess)
    (hf : ∀ x, (f x).pid = x.pid ∧ (f x).sleep_time = x.sleep_time)
    (q : RoundRobinProcess) (h : q ∈ updateProc ps a f) :
    ∃ p ∈ ps, q.pid = p.pid ∧ q.sleep_time = p.sleep_time := by
  rcases mem_updateProc ps a f q h with h | ⟨p, hp, _, hq⟩
  · exact ⟨q, h, rfl, rfl⟩
  · exact ⟨p, hp, hq ▸ (hf p).1, hq ▸ (hf p).2⟩

lemma chargeOthersBySelf_mem (r : Nat) (queue : List Nat) :
    ∀ ps ps2 : List RoundRobinProcess, chargeOthersBySelf r ps queue = some ps2 →
      ∀ q ∈ ps2, ∃ p ∈ ps, q.pid = p.pid ∧ q.sleep_time = p.sleep_time := by
  induction queue with
  | nil =>
    intro ps ps2 h q hq
    simp only [chargeOthersBySelf, Option.some.injEq] at h
    exact ⟨q, h ▸ hq, rfl, rfl⟩
  | cons a rest ih =>
    intro ps ps2 h q hq
    simp only [chargeOthersBySelf] at h
    rcases hfa : findProc ps a with _ | p
    · simp only [hfa] at h
      exact absurd h (by simp)
    · simp only [hfa] at h
      by_cases hle : r ≤ p.remaining
      · rw [if_pos hle] at h
        obtain ⟨p1, hp1, hpid, hsl⟩ := ih _ ps2 h q hq
        obtain ⟨p0, hp0, hpid0, hsl0⟩ :=
          mem_updateProc_nt ps a (chargeSelfF r) (fun x => ⟨rfl, rfl⟩) p1 hp1
        exact ⟨p0, hp0, hpid.trans hpid0, hsl.trans hsl0⟩
      · rw [if_neg hle] at h
        exact absurd h (by simp)

lemma chargeOthersConst_mem (d : Nat) (queue : List Nat) :
    ∀ ps ps2 : List RoundRobinProcess, chargeOthersConst d ps queue = some ps2 →
      ∀ q ∈ ps2, ∃ p ∈ ps, q.pid = p.pid ∧ q.sleep_time = p.sleep_time := by
  induction queue with
  | nil =>
    intro ps ps2 h q hq
    simp only [chargeOthersConst, Option.some.injEq] at h
    exact ⟨q, h ▸ hq, rfl, rfl⟩
  | cons a rest ih =>
    intro ps ps2 h q hq
    simp only [chargeOthersConst] at h
    rcases hfa : findProc ps a with _ | p
    · simp only [hfa] at h
      exact absurd h (by simp)
    · simp only [hfa] at h
      obtain ⟨p1, hp1, hpid, hsl⟩ := ih _ ps2 h q hq
      obtain ⟨p0, hp0, hpid0, hsl0⟩ :=
        mem_updateProc_nt ps a (chargeConstF d) (fun x => ⟨rfl, rfl⟩) p1 hp1
      exact ⟨p0, hp0, hpid.trans hpid0, hsl.trans hsl0⟩

lemma syscallAccounting_spec (s : RoundRobinScheduler) (remaining : Nat)
    (pid : Nat) (rest : List Nat) (p : RoundRobinProcess) (s1 : RoundRobinScheduler)
    (hq : s.ready_queue = pid :: rest) (hnd : (pid :: rest).Nodup)
    (hp : findProc s.processes pid = some p)
    (h : syscallAccounting s remaining = some s1) :
    s1.ready_queue = s.ready_queue ∧ s1.sleep_queue = s.sleep_queue
    ∧ s1.nr_processes = s.nr_processes ∧ s1.timeslice = s.timeslice
    ∧ s1.minimum_remaining_timeslice = s.minimum_remaining_timeslice
    ∧ remaining ≤ p.remaining ∧ 1 ≤ p.remaining - remaining
    ∧ s1.time = s.time + (p.remaining - remaining)
    ∧ findProc s1.processes pid =
        some (setRemainingF remaining (acctF (p.remaining - remaining) p))
    ∧ (∀ b q, b ∈ rest → findProc s.processes b = some q →
        findProc s1.processes b = some (chargeSelfF remaining q)) := by
  obtain ⟨hpidrest, hndrest⟩ := List.nodup_cons.mp hnd
  simp only [syscallAccounting, hq, hp] at h
  by_cases h1 : remaining ≤ p.remaining
  · rw [if_pos h1] at h
    by_cases h2 : 1 ≤ p.remaining - remaining
    · rw [if_pos h2] at h
      rcases hch : chargeOthersBySelf remaining
          (updateProc s.processes pid (acctF (p.remaining - remaining))) rest with _ | ps2
      · rw [hch] at h
        exact absurd h (by simp)
      · rw [hch] at h
        obtain ⟨_, hspec⟩ := chargeOthersBySelf_spec remaining rest _ ps2 hndrest hch
        have hs1 := ((Option.some.injEq _ _).mp h).symm
        subst hs1
        refine ⟨hq.symm, rfl, rfl, rfl, rfl, h1, h2, rfl, ?_, ?_⟩
        · have hup : findProc (updateProc s.processes pid (acctF (p.remaining - remaining))) pid =
              some (acctF (p.remaining - remaining) p) := by
            rw [findProc_updateProc s.processes pid pid (acctF (p.remaining - remaining))
              (fun x => rfl), if_pos rfl, hp]
            rfl
          have hps2 := hspec pid _ hup
          rw [if_neg hpidrest] at hps2
          show findProc (updateProc ps2 pid (setRemainingF remaining)) pid = _
          rw [findProc_updateProc ps2 pid pid (setRemainingF remaining) (fun x => rfl),
            if_pos rfl, hps2]
          rfl
        · intro b q hb hfb
          have hba : b ≠ pid := fun he => hpidrest (he ▸ hb)
          have hfb1 : findProc (updateProc s.processes pid (acctF (p.remaining - remaining))) b =
              some q := by
            rw [findProc_updateProc s.processes pid b (acctF (p.remaining - remaining))
              (fun x => rfl), if_neg hba, hfb]
          have hps2 := hspec b _ hfb1
          rw [if_pos hb] at hps2
          show findProc (updateProc ps2 pid (setRemainingF remaining)) b = _
          rw [findProc_updateProc ps2 pid b (setRemainingF remaining) (fun x => rfl),
            if_neg hba, hps2]
    · rw [if_neg h2] at h
      exact absurd h (by simp)
  · rw [if_neg h1] at h
    exact absurd h (by simp)

lemma syscallAccounting_basic (s : RoundRobinScheduler) (remaining : Nat)
    (s1 : RoundRobinScheduler) (h : syscallAccounting s remaining = some s1) :
    s1.processes.map (fun p => p.pid) = s.processes.map (fun p => p.pid)
    ∧ s1.ready_queue = s.ready_queue ∧ s1.sleep_queue = s.sleep_queue
    ∧ s1.nr_processes = s.nr_processes ∧ s1.timeslice = s.timeslice
    ∧ s1.minimum_remaining_timeslice = s.minimum_remaining_timeslice := by
  simp only [syscallAccounting] at h
  rcases hq : s.ready_queue with _ | ⟨pid, rest⟩
  · simp only [hq, Option.some.injEq] at h
    subst h
    exact ⟨rfl, hq, rfl, rfl, rfl, rfl⟩
  · simp only [hq] at h
    rcases hp : findProc s.processes pid with _ | p
    · simp only [hp] at h
      exact absurd h (by simp)
    · simp only [hp] at h
      by_cases h1 : remaining ≤ p.remaining
      · rw [if_pos h1] at h
        by_cases h2 : 1 ≤ p.remaining - remaining
        · rw [if_pos h2] at h
          rcases hch : chargeOthersBySelf remaining
              (updateProc s.processes pid (acctF (p.remaining - remaining))) rest with _ | ps2
          · rw [hch] at h
            exact absurd h (by simp)
          · rw [hch] at h
            have hs1 := ((Option.some.injEq _ _).mp h).symm
            subst hs1
            refine ⟨?_, rfl, rfl, rfl, rfl, rfl⟩
            rw [updateProc_pidMap ps2 pid (setRemainingF remaining) (fun x => rfl),
              chargeOthersBySelf_pidMap remaining rest _ ps2 hch,
              updateProc_pidMap s.processes pid (acctF (p.remaining - remaining)) (fun x => rfl)]
        · rw [if_neg h2] at h
          exact absurd h (by simp)
      · rw [if_neg h1] at h
        exact absurd h (by simp)

lemma pid_bound_of_map {ps qs : List RoundRobinProcess}
    (hmap : ps.map (fun p => p.pid) = qs.map (fun p => p.pid)) {n : Nat}
    (hb : ∀ q ∈ qs, q.pid ≤ n) : ∀ p ∈ ps, p.pid ≤ n := by
  intro p hp
  have hmem : p.pid ∈ qs.map (fun p => p.pid) := hmap ▸ List.mem_map_of_mem _ hp
  obtain ⟨q, hq, he⟩ := List.mem_map.mp hmem
  exact he ▸ hb q hq

/-- C10: if the reported remaining equals the head process's stored
remaining (zero elapsed time), the head charge computes
elapsed - 1 = 0 - 1 on usize, which underflows, so stop(Syscall{Fork})
and stop(Syscall{Sleep}) panic (model: return none); the accounting is
total only when elapsed is at least 1. -/
theorem c10_zero_elapsed (s : RoundRobinScheduler) (pid : Nat) (rest : List Nat)
    (p : RoundRobinProcess) (prio : Int) (d : Nat)
    (hq : s.ready_queue = pid :: rest) (hp : findProc s.processes pid = some p) :
    s.stop (.Syscall (.Fork prio) p.remaining) = none
    ∧ s.stop (.Syscall (.Sleep d) p.remaining) = none := by
  have hacc : syscallAccounting s p.remaining = none := by
    simp only [syscallAccounting, hq, hp]
    rw [if_pos (le_refl p.remaining)]
    simp
  constructor
  · simp only [RoundRobinScheduler.stop, hacc]
  · simp only [RoundRobinScheduler.stop, hacc]

/-- Witness used by the C10 theorem: pid 1 running at the head with
remaining 5. -/
def c10W : RoundRobinScheduler :=
  { processes := [⟨1, .Running, 0, (0, 0, 0), 5, 0, 5⟩],
    ready_queue := [1], sleep_queue := [], timeslice := 5,
    minimum_remaining_timeslice := 1, nr_processes := 1, time := 0 }

theorem c10_zero_elapsed_witness :
    RoundRobinScheduler.stop c10W (.Syscall (.Fork 0) 5) = none
    ∧ RoundRobinScheduler.stop c10W (.Syscall (.Sleep 3) 5) = none :=
  c10_zero_elapsed c10W 1 [] ⟨1, .Running, 0, (0, 0, 0), 5, 0, 5⟩ 0 3 rfl rfl

/-- C7: stop(Syscall{Fork(priority)}) creates a record with the
monotonically minted fresh pid nr_processes + 1 (distinct from every live
pid when all live pids are bounded by nr_processes), state Ready, the
given priority, zeroed timings and a full quantum; appends that pid to the
ready-queue tail; and returns Pid(new pid). -/
theorem c7_fork_spec (s : RoundRobinScheduler) (prio : Int) (remaining : Nat)
    (res : SyscallResult) (s2 : RoundRobinScheduler)
    (hbound : ∀ p ∈ s.processes, p.pid ≤ s.nr_processes)
    (h : s.stop (.Syscall (.Fork prio) remaining) = some (res, s2)) :
    res = .Pid (s.nr_processes + 1)
    ∧ s2.nr_processes = s.nr_processes + 1
    ∧ s2.ready_queue = s.ready_queue ++ [s.nr_processes + 1]
    ∧ findProc s2.processes (s.nr_processes + 1) =
        some (RoundRobinProcess.new (s.nr_processes + 1) ProcessState.Ready prio
          (0, 0, 0) s.timeslice)
    ∧ (∀ p ∈ s.processes, p.pid ≠ s.nr_processes + 1)
    ∧ (∀ p ∈ s2.processes, p.pid ≤ s2.nr_processes) := by
  simp only [RoundRobinScheduler.stop] at h
  rcases hacc : syscallAccounting s remaining with _ | s1
  · rw [hacc] at h
    exact absurd h (by simp)
  · rw [hacc] at h
    obtain ⟨hmap, hready, _, hnr, hts, _⟩ := syscallAccounting_basic s remaining s1 hacc
    have hpair := (Option.some.injEq _ _).mp h
    have hres : SyscallResult.Pid (s1.nr_processes + 1) = res := congrArg Prod.fst hpair
    have hs2 : s2 = { s1 with
        processes := s1.processes ++
          [RoundRobinProcess.new (s1.nr_processes + 1) ProcessState.Ready prio
            (0, 0, 0) s1.timeslice],
        ready_queue := s1.ready_queue ++ [s1.nr_processes + 1],
        nr_processes := s1.nr_processes + 1 } := (congrArg Prod.snd hpair).symm
    have hbound1 : ∀ p ∈ s1.processes, p.pid ≤ s.nr_processes := pid_bound_of_map hmap hbound
    have hfresh1 : ∀ p ∈ s1.processes, p.pid ≠ s.nr_processes + 1 := by
      intro p hp he
      exact absurd (he ▸ hbound1 p hp) (by omega)
    subst hs2
    refine ⟨by rw [← hres, hnr], by simp [hnr], by simp [hready, hnr], ?_, ?_, ?_⟩
    · show findProc (s1.processes ++ [RoundRobinProcess.new (s1.nr_processes + 1) _ _ _ _])
        (s.nr_processes + 1) = _
      rw [findProc_append, findProc_eq_none s1.processes (s.nr_processes + 1) hfresh1]
      simp [findProc, RoundRobinProcess.new, hnr, hts]
    · intro p hp he
      exact absurd (he ▸ hbound p hp) (by omega)
    · intro p hp
      rcases List.mem_append.mp hp with hp | hp
      · have := hbound1 p hp
        simp only [hnr]
        omega
      · rcases List.mem_singleton.mp hp with rfl
        simp [RoundRobinProcess.new, hnr]

/-- State produced by stop(Syscall{Fork(0), 0}) on a fresh engine with
timeslice 2 and minimum 1. -/
def c7W : RoundRobinScheduler :=
  { processes := [⟨1, .Ready, 0, (0, 0, 0), 2, 0, 2⟩],
    ready_queue := [1], sleep_queue := [], timeslice := 2,
    minimum_remaining_timeslice := 1, nr_processes := 1, time := 0 }

theorem c7_fork_spec_witness :
    SyscallResult.Pid 1 = .Pid ((RoundRobinScheduler.new 2 1).nr_processes + 1)
    ∧ c7W.ready_queue =
        (RoundRobinScheduler.new 2 1).ready_queue ++
          [(RoundRobinScheduler.new 2 1).nr_processes + 1]
    ∧ findProc c7W.processes ((RoundRobinScheduler.new 2 1).nr_processes + 1) =
        some (RoundRobinProcess.new ((RoundRobinScheduler.new 2 1).nr_processes + 1)
          ProcessState.Ready 0 (0, 0, 0) (RoundRobinScheduler.new 2 1).timeslice) := by
  have h := c7_fork_spec (RoundRobinScheduler.new 2 1) 0 0 (.Pid 1) c7W
    (by decide) (by decide)
  exact ⟨h.1, h.2.2.1, h.2.2.2.1⟩

/-- C8: with an empty ready queue and a non-empty sleep queue, next()
returns Sleep(d) where d is the sleep_time of the earliest-enqueued
sleeper (the sleep-queue head, assuming it has a record and a positive
sleep_time, as Sleep syscalls with positive duration guarantee), and that
pid moves from the sleep-queue head to the ready-queue tail; with both
queues empty, next() returns Done. -/
theorem c8_sleep_done (s : RoundRobinScheduler) :
    (∀ pid srest p, s.ready_queue = [] → s.sleep_queue = pid :: srest →
      findProc s.processes pid = some p → 0 < p.sleep_time →
      s.next = some (.Sleep p.sleep_time, { s with ready_queue := [pid], sleep_queue := srest }))
    ∧ (s.ready_queue = [] → s.sleep_queue = [] → s.next = some (.Done, s)) := by
  constructor
  · intro pid srest p hr hs hp hpos
    have hcond : ¬(0 < s.ready_queue.length ∧
        s.ready_queue.count 1 + s.sleep_queue.count 1 = 0) := by
      rw [hr]; simp
    simp only [RoundRobinScheduler.next, hr, hs, hp, if_pos hpos]
    simp
  · intro hr hs
    have hcond : ¬(0 < s.ready_queue.length ∧
        s.ready_queue.count 1 + s.sleep_queue.count 1 = 0) := by
      rw [hr]; simp
    simp only [RoundRobinScheduler.next, hr, hs]
    simp

/-- A single sleeper, pid 1, with sleep_time 4; ready queue empty. -/
def c8W : RoundRobinScheduler :=
  { processes := [⟨1, .Waiting none, 0, (0, 0, 0), 0, 4, 2⟩],
    ready_queue := [], sleep_queue := [1], timeslice := 2,
    minimum_remaining_timeslice := 1, nr_processes := 1, time := 0 }

theorem c8_sleep_done_witness :
    RoundRobinScheduler.next c8W =
      some (.Sleep 4, { c8W with ready_queue := [1], sleep_queue := [] })
    ∧ RoundRobinScheduler.next (RoundRobinScheduler.new 2 1) =
      some (.Done, RoundRobinScheduler.new 2 1) :=
  ⟨(c8_sleep_done c8W).1 1 [] ⟨1, .Waiting none, 0, (0, 0, 0), 0, 4, 2⟩ rfl rfl rfl (by decide),
   (c8_sleep_done (RoundRobinScheduler.new 2 1)).2 rfl rfl⟩

/-- C9 (amended): stop for a ready-queue-head pid absent from the
process table panics (none) for every reason that touches the head, but
stop without a prior matching Run - an empty ready queue - is not fatal:
Expired, Exit and Sleep return Success leaving the state unchanged, and
Fork still creates a process (the bootstrap path). -/
theorem c9_contract (s : RoundRobinScheduler) (r d : Nat) (prio : Int) :
    (s.ready_queue = [] →
      s.stop .Expired = some (.Success, s)
      ∧ s.stop (.Syscall .Exit r) = some (.Success, s)
      ∧ s.stop (.Syscall (.Sleep d) r) = some (.Success, s)
      ∧ s.stop (.Syscall (.Fork prio) r) = some (.Pid (s.nr_processes + 1),
          { s with
            processes := s.processes ++
              [RoundRobinProcess.new (s.nr_processes + 1) ProcessState.Ready prio
                (0, 0, 0) s.timeslice],
            ready_queue := s.ready_queue ++ [s.nr_processes + 1],
            nr_processes := s.nr_processes + 1 }))
    ∧ (∀ pid rest, s.ready_queue = pid :: rest → findProc s.processes pid = none →
      s.stop .Expired = none ∧ s.stop (.Syscall .Exit r) = none
      ∧ s.stop (.Syscall (.Sleep d) r) = none
      ∧ s.stop (.Syscall (.Fork prio) r) = none) := by
  constructor
  · intro hr
    have hacc : syscallAccounting s r = some s := by
      simp only [syscallAccounting, hr]
    refine ⟨?_, ?_, ?_, ?_⟩
    · simp only [RoundRobinScheduler.stop, hr]
    · simp only [RoundRobinScheduler.stop, hr]
    · simp only [RoundRobinScheduler.stop, hacc, hr]
    · simp only [RoundRobinScheduler.stop, hacc]
  · intro pid rest hq hp
    have hacc : syscallAccounting s r = none := by
      simp only [syscallAccounting, hq, hp]
    refine ⟨?_, ?_, ?_, ?_⟩
    · simp only [RoundRobinScheduler.stop, hq, hp]
    · simp only [RoundRobinScheduler.stop, hq, hp]
    · simp only [RoundRobinScheduler.stop, hacc]
    · simp only [RoundRobinScheduler.stop, hacc]

/-- Ready queue names pid 7 but no record for it exists. -/
def c9W : RoundRobinScheduler :=
  { processes := [], ready_queue := [7], sleep_queue := [], timeslice := 3,
    minimum_remaining_timeslice := 1, nr_processes := 0, time := 0 }

theorem c9_contract_witness :
    RoundRobinScheduler.stop (RoundRobinScheduler.new 3 1) .Expired =
      some (.Success, RoundRobinScheduler.new 3 1)
    ∧ RoundRobinScheduler.stop c9W .Expired = none :=
  ⟨((c9_contract (RoundRobinScheduler.new 3 1) 0 0 0).1 rfl).1,
   ((c9_contract c9W 0 0 0).2 7 [] rfl rfl).1⟩

lemma findProc_filter_ne (ps : List RoundRobinProcess) (a b : Nat) (hba : b ≠ a) :
    findProc (ps.filter fun q => q.pid ≠ a) b = findProc ps b := by
  induction ps with
  | nil => rfl
  | cons r rest ih =>
    by_cases hra : r.pid = a
    · have hrb : r.pid ≠ b := fun he => hba (he ▸ hra)
      have hdrop : (r :: rest).filter (fun q => decide (q.pid ≠ a)) =
          rest.filter (fun q => decide (q.pid ≠ a)) := by
        simp [List.filter_cons, hra]
      rw [hdrop]
      rw [show findProc (r :: rest) b = findProc rest b from by simp [findProc, hrb]]
      exact ih
    · have hkeep : (r :: rest).filter (fun q => decide (q.pid ≠ a)) =
          r :: rest.filter (fun q => decide (q.pid ≠ a)) := by
        simp [List.filter_cons, hra]
      rw [hkeep]
      by_cases hrb : r.pid = b
      · simp [findProc, hrb]
      · simp only [findProc, if_neg hrb]
        exact ih

/-- C1 (amended): for a stop(Syscall{_, remaining}) with the running
process at the ready-queue head (elapsed = head.remaining - remaining):
the Fork and Sleep branches add elapsed to the head's waiting accumulator
timings.0 and to global time, increment the scheduled-event counter
timings.1, add elapsed - 1 to the execution accumulator timings.2 (acctF),
and add each other ready process's OWN remaining minus the reported
remaining to that process's timings.0 (chargeSelfF) - not elapsed; the
Wait and Signal branches perform no accounting at all; the Exit branch
adds elapsed to global time and elapsed to every other ready process's
timings.0 (chargeConstF) only. -/
theorem c1_accounting (s : RoundRobinScheduler) (pid : Nat) (rest : List Nat)
    (p : RoundRobinProcess) (remaining : Nat)
    (hq : s.ready_queue = pid :: rest) (hnd : (pid :: rest).Nodup)
    (hp : findProc s.processes pid = some p) :
    (∀ prio res s2, s.stop (.Syscall (.Fork prio) remaining) = some (res, s2) →
      s2.time = s.time + (p.remaining - remaining)
      ∧ findProc s2.processes pid =
          some (setRemainingF remaining (acctF (p.remaining - remaining) p))
      ∧ (∀ b q, b ∈ rest → findProc s.processes b = some q →
          findProc s2.processes b = some (chargeSelfF remaining q)))
    ∧ (∀ d res s2, s.stop (.Syscall (.Sleep d) remaining) = some (res, s2) →
      s2.time = s.time + (p.remaining - remaining)
      ∧ findProc s2.processes pid =
          some (sleepF d (setRemainingF remaining (acctF (p.remaining - remaining) p)))
      ∧ s2.ready_queue = rest
      ∧ s2.sleep_queue = s.sleep_queue ++ [pid]
      ∧ (∀ b q, b ∈ rest → findProc s.processes b = some q →
          findProc s2.processes b = some (chargeSelfF remaining q)))
    ∧ (∀ ev, s.stop (.Syscall (.Wait ev) remaining) = some (.Success, s))
    ∧ (∀ ev, s.stop (.Syscall (.Signal ev) remaining) = some (.Success, s))
    ∧ (∀ res s2, s.stop (.Syscall .Exit remaining) = some (res, s2) →
      s2.time = s.time + (p.remaining - remaining)
      ∧ (∀ b q, b ∈ rest → findProc s.processes b = some q →
          findProc s2.processes b = some (chargeConstF (p.remaining - remaining) q))) := by
  obtain ⟨hpidrest, hndrest⟩ := List.nodup_cons.mp hnd
  refine ⟨?_, ?_, fun ev => rfl, fun ev => rfl, ?_⟩
  · intro prio res s2 h
    simp only [RoundRobinScheduler.stop] at h
    rcases hacc : syscallAccounting s remaining with _ | s1
    · rw [hacc] at h
      exact absurd h (by simp)
    · rw [hacc] at h
      obtain ⟨hready, hsleep, hnr, hts, hmin, h1, h2, htime, hhead, hothers⟩ :=
        syscallAccounting_spec s remaining pid rest p s1 hq hnd hp hacc
      have hs2 := (congrArg Prod.snd ((Option.some.injEq _ _).mp h)).symm
      subst hs2
      refine ⟨htime, ?_, ?_⟩
      · show findProc (s1.processes ++ _) pid = _
        rw [findProc_append]
        simp only [hhead]
      · intro b q hb hfb
        show findProc (s1.processes ++ _) b = _
        rw [findProc_append]
        simp only [hothers b q hb hfb]
  · intro d res s2 h
    simp only [RoundRobinScheduler.stop] at h
    rcases hacc : syscallAccounting s remaining with _ | s1
    · rw [hacc] at h
      exact absurd h (by simp)
    · simp only [hacc] at h
      obtain ⟨hready, hsleep, hnr, hts, hmin, h1, h2, htime, hhead, hothers⟩ :=
        syscallAccounting_spec s remaining pid rest p s1 hq hnd hp hacc
      rw [hready, hq] at h
      simp only [hhead] at h
      have hs2 := (congrArg Prod.snd ((Option.some.injEq _ _).mp h)).symm
      subst hs2
      refine ⟨htime, ?_, rfl, ?_, ?_⟩
      · show findProc (updateProc s1.processes pid (sleepF d)) pid = _
        rw [findProc_updateProc s1.processes pid pid (sleepF d) (fun x => rfl),
          if_pos rfl, hhead]
        rfl
      · show s1.sleep_queue ++ [pid] = s.sleep_queue ++ [pid]
        rw [hsleep]
      · intro b q hb hfb
        have hba : b ≠ pid := fun he => hpidrest (he ▸ hb)
        show findProc (updateProc s1.processes pid (sleepF d)) b = _
        rw [findProc_updateProc s1.processes pid b (sleepF d) (fun x => rfl),
          if_neg hba, hothers b q hb hfb]
  · intro res s2 h
    simp only [RoundRobinScheduler.stop, hq, hp] at h
    by_cases h1 : remaining ≤ p.remaining
    · rw [if_pos h1] at h
      rcases hch : chargeOthersConst (p.remaining - remaining) s.processes rest with _ | ps2
      · rw [hch] at h
        exact absurd h (by simp)
      · rw [hch] at h
        obtain ⟨_, hspec⟩ :=
          chargeOthersConst_spec (p.remaining - remaining) rest s.processes ps2 hndrest hch
        have hs2 := (congrArg Prod.snd ((Option.some.injEq _ _).mp h)).symm
        subst hs2
        refine ⟨rfl, ?_⟩
        intro b q hb hfb
        have hba : b ≠ pid := fun he => hpidrest (he ▸ hb)
        have hps2 := hspec b q hfb
        rw [if_pos hb] at hps2
        show findProc (ps2.filter fun x => x.pid ≠ pid) b = _
        rw [findProc_filter_ne ps2 pid b hba, hps2]
    · rw [if_neg h1] at h
      exact absurd h (by simp)

/-- pid 1 running at the head with remaining 4, pid 2 ready with
remaining 6; global time 10. -/
def c1W : RoundRobinScheduler :=
  { processes := [⟨1, .Running, 0, (0, 0, 0), 4, 0, 4⟩, ⟨2, .Ready, 0, (0, 0, 0), 6, 0, 6⟩],
    ready_queue := [1, 2], sleep_queue := [], timeslice := 4,
    minimum_remaining_timeslice := 1, nr_processes := 2, time := 10 }

/-- stop(Syscall{Fork(0), remaining 1}) applied to c1W. -/
def c1W2 : RoundRobinScheduler :=
  { processes := [⟨1, .Running, 0, (3, 1, 2), 1, 0, 4⟩, ⟨2, .Ready, 0, (5, 0, 0), 6, 0, 6⟩,
                  ⟨3, .Ready, 0, (0, 0, 0), 4, 0, 4⟩],
    ready_queue := [1, 2, 3], sleep_queue := [], timeslice := 4,
    minimum_remaining_timeslice := 1, nr_processes := 3, time := 13 }

theorem c1_accounting_witness :
    c1W2.time = c1W.time + ((4 : Nat) - 1)
    ∧ findProc c1W2.processes 1 =
        some (setRemainingF 1 (acctF ((4 : Nat) - 1) ⟨1, .Running, 0, (0, 0, 0), 4, 0, 4⟩))
    ∧ findProc c1W2.processes 2 = some (chargeSelfF 1 ⟨2, .Ready, 0, (0, 0, 0), 6, 0, 6⟩) := by
  have h := (c1_accounting c1W 1 [2] ⟨1, .Running, 0, (0, 0, 0), 4, 0, 4⟩ 1 rfl (by decide)
    rfl).1 0 (.Pid 3) c1W2 (by decide)
  exact ⟨h.1, h.2.1, h.2.2 2 _ (by decide) rfl⟩

/-- C5 (amended): for stop(Expired) with the running process at the
ready-queue head (record p), the head's STORED remaining - which equals
the granted quantum except in the degenerate path that granted a full
timeslice to a process whose stored remaining was 0 - is added to global
time, to the head's waiting and execution accumulators (expiredF), and to
every other ready process's waiting accumulator (chargeConstF); afterwards
the head's remaining is the full configured timeslice, its state is Ready,
and it sits at the ready-queue tail. -/
theorem c5_expired_spec (s : RoundRobinScheduler) (pid : Nat) (rest : List Nat)
    (p : RoundRobinProcess) (res : SyscallResult) (s2 : RoundRobinScheduler)
    (hq : s.ready_queue = pid :: rest) (hnd : (pid :: rest).Nodup)
    (hp : findProc s.processes pid = some p)
    (h : s.stop .Expired = some (res, s2)) :
    res = .Success
    ∧ s2.time = s.time + p.remaining
    ∧ s2.ready_queue = rest ++ [pid]
    ∧ findProc s2.processes pid = some (setRemainingF s.timeslice (expiredF p.remaining p))
    ∧ (∀ b q, b ∈ rest → findProc s.processes b = some q →
        findProc s2.processes b = some (chargeConstF p.remaining q)) := by
  obtain ⟨hpidrest, hndrest⟩ := List.nodup_cons.mp hnd
  simp only [RoundRobinScheduler.stop, hq, hp] at h
  rcases hch : chargeOthersConst p.remaining
      (updateProc s.processes pid (expiredF p.remaining)) rest with _ | ps2
  · rw [hch] at h
    exact absurd h (by simp)
  · rw [hch] at h
    obtain ⟨_, hspec⟩ := chargeOthersConst_spec p.remaining rest _ ps2 hndrest hch
    have hpair := (Option.some.injEq _ _).mp h
    have hres := (congrArg Prod.fst hpair).symm
    have hs2 := (congrArg Prod.snd hpair).symm
    subst hs2
    refine ⟨hres, rfl, rfl, ?_, ?_⟩
    · have hup : findProc (updateProc s.processes pid (expiredF p.remaining)) pid =
          some (expiredF p.remaining p) := by
        rw [findProc_updateProc s.processes pid pid (expiredF p.remaining) (fun x => rfl),
          if_pos rfl, hp]
        rfl
      have hps2 := hspec pid _ hup
      rw [if_neg hpidrest] at hps2
      show findProc (updateProc ps2 pid (setRemainingF s.timeslice)) pid = _
      rw [findProc_updateProc ps2 pid pid (setRemainingF s.timeslice) (fun x => rfl),
        if_pos rfl, hps2]
      rfl
    · intro b q hb hfb
      have hba : b ≠ pid := fun he => hpidrest (he ▸ hb)
      have hfb1 : findProc (updateProc s.processes pid (expiredF p.remaining)) b = some q := by
        rw [findProc_updateProc s.processes pid b (expiredF p.remaining) (fun x => rfl),
          if_neg hba, hfb]
      have hps2 := hspec b _ hfb1
      rw [if_pos hb] at hps2
      show findProc (updateProc ps2 pid (setRemainingF s.timeslice)) b = _
      rw [findProc_updateProc ps2 pid b (setRemainingF s.timeslice) (fun x => rfl),
        if_neg hba, hps2]

/-- pid 1 running at the head with remaining 2, pid 2 ready; time 10. -/
def c5W : RoundRobinScheduler :=
  { processes := [⟨1, .Running, 0, (2, 3, 4), 2, 0, 2⟩, ⟨2, .Ready, 0, (5, 0, 0), 1, 0, 2⟩],
    ready_queue := [1, 2], sleep_queue := [], timeslice := 2,
    minimum_remaining_timeslice := 1, nr_processes := 2, time := 10 }

/-- stop(Expired) applied to c5W. -/
def c5W2 : RoundRobinScheduler :=
  { processes := [⟨1, .Ready, 0, (4, 3, 6), 2, 0, 2⟩, ⟨2, .Ready, 0, (7, 0, 0), 1, 0, 2⟩],
    ready_queue := [2, 1], sleep_queue := [], timeslice := 2,
    minimum_remaining_timeslice := 1, nr_processes := 2, time := 12 }

theorem c5_expired_spec_witness :
    c5W2.time = c5W.time + (2 : Nat)
    ∧ c5W2.ready_queue = [2] ++ [1]
    ∧ findProc c5W2.processes 1 =
        some (setRemainingF 2 (expiredF 2 ⟨1, .Running, 0, (2, 3, 4), 2, 0, 2⟩)) := by
  have h := c5_expired_spec c5W 1 [2] ⟨1, .Running, 0, (2, 3, 4), 2, 0, 2⟩ .Success c5W2
    rfl (by decide) rfl (by decide)
  exact ⟨h.2.1, h.2.2.1, h.2.2.2.1⟩

lemma nextSecond_spec (s : RoundRobinScheduler) (pid : Nat) (rest : List Nat)
    (ps2 : List RoundRobinProcess) (d : SchedulingDecision) (s2 : RoundRobinScheduler)
    (h : nextSecond s pid rest ps2 = some (d, s2)) :
    (∃ ts, d = .Run pid ts)
    ∧ s2.processes = updateProc ps2 pid (setStateF ProcessState.Running)
    ∧ s2.ready_queue = (pid :: rest) ++ [pid]
    ∧ s2.sleep_queue = s.sleep_queue := by
  simp only [nextSecond] at h
  rcases hfp : findProc ps2 pid with _ | p2
  · rw [hfp] at h
    exact absurd h (by simp)
  · simp only [hfp] at h
    by_cases hpos : 0 < p2.remaining
    · rw [if_pos hpos] at h
      have hpair := (Option.some.injEq _ _).mp h
      have hd := (congrArg Prod.fst hpair).symm
      have hs2 := (congrArg Prod.snd hpair).symm
      subst hs2
      exact ⟨⟨p2.remaining, hd⟩, rfl, rfl, rfl⟩
    · rw [if_neg hpos] at h
      have hpair := (Option.some.injEq _ _).mp h
      have hd := (congrArg Prod.fst hpair).symm
      have hs2 := (congrArg Prod.snd hpair).symm
      subst hs2
      exact ⟨⟨s.timeslice, hd⟩, rfl, rfl, rfl⟩

lemma nextRun_spec (s : RoundRobinScheduler) (pid : Nat) (rest : List Nat)
    (ps1 : List RoundRobinProcess) (d : SchedulingDecision) (s2 : RoundRobinScheduler)
    (h : nextRun s pid rest ps1 = some (d, s2)) :
    (∃ ts, d = .Run pid ts)
    ∧ ((s2.processes = updateProc ps1 pid (setStateF ProcessState.Running)
        ∧ s2.ready_queue = s.ready_queue ∧ s2.sleep_queue = s.sleep_queue)
      ∨ (s2.processes = updateProc (updateProc ps1 pid (setStateF ProcessState.Ready)) pid
            (setStateF ProcessState.Running)
        ∧ s2.ready_queue = (pid :: rest) ++ [pid] ∧ s2.sleep_queue = s.sleep_queue)) := by
  simp only [nextRun] at h
  rcases hfp : findProc ps1 pid with _ | p
  · rw [hfp] at h
    exact absurd h (by simp)
  · simp only [hfp] at h
    by_cases hcond : 0 < p.remaining ∧ s.minimum_remaining_timeslice ≤ p.remaining
    · rw [if_pos hcond] at h
      have hpair := (Option.some.injEq _ _).mp h
      have hd := (congrArg Prod.fst hpair).symm
      have hs2 := (congrArg Prod.snd hpair).symm
      subst hs2
      exact ⟨⟨p.remaining, hd⟩, Or.inl ⟨rfl, rfl, rfl⟩⟩
    · rw [if_neg hcond] at h
      obtain ⟨hd, hps, hready, hsleep⟩ := nextSecond_spec s pid rest _ d s2 h
      exact ⟨hd, Or.inr ⟨hps, hready, hsleep⟩⟩

/-- C4 (amended): next() returns Panic exactly when the ready queue is
non-empty and Pid 1 occurs in neither the ready queue nor the sleep queue
(the managed-process records are not consulted); whenever Panic is
returned, every managed process record's state has been set to Ready. -/
theorem c4_panic_iff (s : RoundRobinScheduler) :
    ((s.next).map Prod.fst = some SchedulingDecision.Panic ↔
      (s.ready_queue ≠ [] ∧ (1 : Nat) ∉ s.ready_queue ∧ (1 : Nat) ∉ s.sleep_queue))
    ∧ (∀ s2, s.next = some (.Panic, s2) → ∀ p ∈ s2.processes, p.state = .Ready) := by
  by_cases hc : 0 < s.ready_queue.length ∧ s.ready_queue.count 1 + s.sleep_queue.count 1 = 0
  · have hnext : s.next = some (.Panic,
        { s with processes := s.processes.map (setStateF ProcessState.Ready) }) := by
      simp only [RoundRobinScheduler.next, if_pos hc]
    have hrhs : s.ready_queue ≠ [] ∧ (1 : Nat) ∉ s.ready_queue ∧ (1 : Nat) ∉ s.sleep_queue := by
      obtain ⟨h1, h2⟩ := hc
      exact ⟨List.length_pos.mp h1, List.count_eq_zero.mp (by omega),
        List.count_eq_zero.mp (by omega)⟩
    refine ⟨⟨fun _ => hrhs, fun _ => by rw [hnext]; rfl⟩, ?_⟩
    intro s2 h p hp
    rw [hnext] at h
    injection h with h1
    injection h1 with h2 h3
    subst h3
    obtain ⟨q, hq, rfl⟩ := List.mem_map.mp hp
    rfl
  · have hnp : (s.next).map Prod.fst ≠ some SchedulingDecision.Panic := by
      simp only [RoundRobinScheduler.next, if_neg hc]
      rcases hr : s.ready_queue with _ | ⟨pid, rest⟩
      · rcases hs : s.sleep_queue with _ | ⟨w, srest⟩
        · simp
        · rcases hfp : findProc s.processes w with _ | pw
          · simp [hfp]
          · by_cases hpos : 0 < pw.sleep_time
            · simp [hfp, if_pos hpos]
            · simp [hfp, if_neg hpos]
      · rcases hfp : findProc s.processes pid with _ | p0
        · simp [hfp]
        · rcases hnx : nextRun s pid rest
            (if 0 < p0.sleep_time then updateProc s.processes pid wakeF
             else s.processes) with _ | ⟨d, s2⟩
          · simp [hfp, hnx]
          · obtain ⟨⟨ts, hd⟩, _⟩ := nextRun_spec s pid rest _ d s2 hnx
            simp [hfp, hnx, hd]
    have hrhsneg : ¬(s.ready_queue ≠ [] ∧ (1 : Nat) ∉ s.ready_queue
        ∧ (1 : Nat) ∉ s.sleep_queue) := by
      rintro ⟨h1, h2, h3⟩
      exact hc ⟨List.length_pos.mpr h1,
        by rw [List.count_eq_zero.mpr h2, List.count_eq_zero.mpr h3]⟩
    refine ⟨⟨fun hx => absurd hx hnp, fun hx => absurd hx hrhsneg⟩, ?_⟩
    intro s2 h
    have hx : (s.next).map Prod.fst = some SchedulingDecision.Panic := by
      rw [h]
      rfl
    exact absurd hx hnp

theorem c4_panic_iff_witness :
    (RoundRobinScheduler.next c4S).map Prod.fst = some SchedulingDecision.Panic :=
  (c4_panic_iff c4S).1.mpr ⟨by decide, by decide, by decide⟩

/-- Weakened sleep invariant: a process with positive sleep_time is in the
sleep queue or in the ready queue (the latter happens after a Sleep
decision wakes it, before next() clears its sleep_time). -/
def sleepInv (s : RoundRobinScheduler) : Prop :=
  ∀ p ∈ s.processes, 0 < p.sleep_time → p.pid ∈ s.sleep_queue ∨ p.pid ∈ s.ready_queue

lemma sleepInv_transfer (s s2 : RoundRobinScheduler)
    (hproc : ∀ q ∈ s2.processes,
      (∃ p ∈ s.processes, q.pid = p.pid ∧ q.sleep_time = p.sleep_time)
      ∨ q.sleep_time = 0 ∨ q.pid ∈ s2.sleep_queue ∨ q.pid ∈ s2.ready_queue)
    (hsq : ∀ q ∈ s2.processes, q.pid ∈ s.sleep_queue →
      q.pid ∈ s2.sleep_queue ∨ q.pid ∈ s2.ready_queue)
    (hrq : ∀ q ∈ s2.processes, q.pid ∈ s.ready_queue →
      q.pid ∈ s2.sleep_queue ∨ q.pid ∈ s2.ready_queue)
    (hinv : sleepInv s) : sleepInv s2 := by
  intro q hq hpos
  rcases hproc q hq with ⟨p, hp, hpid, hsl⟩ | h0 | h | h
  · have hpos2 : 0 < p.sleep_time := hsl ▸ hpos
    rcases hinv p hp hpos2 with hmem | hmem
    · exact hsq q hq (by rw [hpid]; exact hmem)
    · exact hrq q hq (by rw [hpid]; exact hmem)
  · omega
  · exact Or.inl h
  · exact Or.inr h

lemma syscallAccounting_mem (s : RoundRobinScheduler) (r : Nat)
    (s1 : RoundRobinScheduler) (h : syscallAccounting s r = some s1) :
    s1.ready_queue = s.ready_queue ∧ s1.sleep_queue = s.sleep_queue
    ∧ ∀ q ∈ s1.processes, ∃ p ∈ s.processes, q.pid = p.pid ∧ q.sleep_time = p.sleep_time := by
  simp only [syscallAccounting] at h
  rcases hq : s.ready_queue with _ | ⟨pid, rest⟩
  · simp only [hq, Option.some.injEq] at h
    subst h
    exact ⟨hq, rfl, fun q hqq => ⟨q, hqq, rfl, rfl⟩⟩
  · simp only [hq] at h
    rcases hp : findProc s.processes pid with _ | p
    · simp only [hp] at h
      exact absurd h (by simp)
    · simp only [hp] at h
      by_cases h1 : r ≤ p.remaining
      · rw [if_pos h1] at h
        by_cases h2 : 1 ≤ p.remaining - r
        · rw [if_pos h2] at h
          rcases hch : chargeOthersBySelf r
              (updateProc s.processes pid (acctF (p.remaining - r))) rest with _ | ps2
          · rw [hch] at h
            exact absurd h (by simp)
          · rw [hch] at h
            have hs1 := ((Option.some.injEq _ _).mp h).symm
            subst hs1
            refine ⟨rfl, rfl, ?_⟩
            intro q hqq
            obtain ⟨p1, hp1, hq1, hq2⟩ :=
              mem_updateProc_nt ps2 pid (setRemainingF r) (fun x => ⟨rfl, rfl⟩) q hqq
            obtain ⟨p0, hp0, hq3, hq4⟩ := chargeOthersBySelf_mem r rest _ ps2 hch p1 hp1
            obtain ⟨pp, hpp, hq5, hq6⟩ :=
              mem_updateProc_nt s.processes pid (acctF (p.remaining - r))
                (fun x => ⟨rfl, rfl⟩) p0 hp0
            exact ⟨pp, hpp, (hq1.trans hq3).trans hq5, (hq2.trans hq4).trans hq6⟩
        · rw [if_neg h2] at h
          exact absurd h (by simp)
      · rw [if_neg h1] at h
        exact absurd h (by simp)

lemma next_preserves_sleepInv (s : RoundRobinScheduler) (hinv : sleepInv s) :
    ∀ d s2, s.next = some (d, s2) → sleepInv s2 := by
  intro d s2 h
  simp only [RoundRobinScheduler.next] at h
  by_cases hc : 0 < s.ready_queue.length ∧ s.ready_queue.count 1 + s.sleep_queue.count 1 = 0
  · rw [if_pos hc] at h
    injection h with h1
    injection h1 with h2 h3
    subst h3
    refine sleepInv_transfer s _ ?_ ?_ ?_ hinv
    · intro q hq
      obtain ⟨p, hp, rfl⟩ := List.mem_map.mp hq
      exact Or.inl ⟨p, hp, rfl, rfl⟩
    · intro q _ hm
      exact Or.inl hm
    · intro q _ hm
      exact Or.inr hm
  · rw [if_neg hc] at h
    rcases hr : s.ready_queue with _ | ⟨pid, rest⟩
    · simp only [hr] at h
      rcases hs : s.sleep_queue with _ | ⟨w, srest⟩
      · simp only [hs] at h
        injection h with h1
        injection h1 with h2 h3
        subst h3
        exact hinv
      · simp only [hs] at h
        rcases hfp : findProc s.processes w with _ | pw
        · rw [hfp] at h
          exact absurd h (by simp)
        · simp only [hfp] at h
          by_cases hpos : 0 < pw.sleep_time
          · rw [if_pos hpos] at h
            injection h with h1
            injection h1 with h2 h3
            subst h3
            refine sleepInv_transfer s _ ?_ ?_ ?_ hinv
            · intro q hq
              exact Or.inl ⟨q, hq, rfl, rfl⟩
            · intro q _ hm
              rw [hs] at hm
              rcases List.mem_cons.mp hm with hm | hm
              · exact Or.inr (by simp [hm])
              · exact Or.inl hm
            · intro q _ hm
              rw [hr] at hm
              exact absurd hm (List.not_mem_nil _)
          · rw [if_neg hpos] at h
            exact absurd h (by simp)
    · simp only [hr] at h
      rcases hfp : findProc s.processes pid with _ | p0
      · rw [hfp] at h
        exact absurd h (by simp)
      · simp only [hfp] at h
        obtain ⟨_, hcase⟩ := nextRun_spec s pid rest _ d s2 h
        have hps1mem : ∀ q ∈ (if 0 < p0.sleep_time then updateProc s.processes pid wakeF
            else s.processes),
            (∃ p ∈ s.processes, q.pid = p.pid ∧ q.sleep_time = p.sleep_time)
            ∨ q.sleep_time = 0 := by
          intro q hq
          by_cases hsl : 0 < p0.sleep_time
          · rw [if_pos hsl] at hq
            rcases mem_updateProc s.processes pid wakeF q hq with hq2 | ⟨p, hp, _, rfl⟩
            · exact Or.inl ⟨q, hq2, rfl, rfl⟩
            · exact Or.inr rfl
          · rw [if_neg hsl] at hq
            exact Or.inl ⟨q, hq, rfl, rfl⟩
        rcases hcase with ⟨hps, hready2, hsleep2⟩ | ⟨hps, hready2, hsleep2⟩
        · refine sleepInv_transfer s s2 ?_ ?_ ?_ hinv
          · intro q hq
            rw [hps] at hq
            rcases mem_updateProc _ pid (setStateF ProcessState.Running) q hq with
              hq2 | ⟨p1, hp1, _, rfl⟩
            · rcases hps1mem q hq2 with hgood | h0
              · exact Or.inl hgood
              · exact Or.inr (Or.inl h0)
            · rcases hps1mem p1 hp1 with ⟨p, hp, h1, h2⟩ | h0
              · exact Or.inl ⟨p, hp, h1, h2⟩
              · exact Or.inr (Or.inl h0)
          · intro q _ hm
            rw [hsleep2]
            exact Or.inl hm
          · intro q _ hm
            rw [hready2]
            exact Or.inr hm
        · refine sleepInv_transfer s s2 ?_ ?_ ?_ hinv
          · intro q hq
            rw [hps] at hq
            rcases mem_updateProc _ pid (setStateF ProcessState.Running) q hq with
              hq2 | ⟨p1, hp1, _, rfl⟩
            · rcases mem_updateProc _ pid (setStateF ProcessState.Ready) q hq2 with
                hq3 | ⟨p2, hp2, _, rfl⟩
              · rcases hps1mem q hq3 with hgood | h0
                · exact Or.inl hgood
                · exact Or.inr (Or.inl h0)
              · rcases hps1mem p2 hp2 with ⟨p, hp, h1, h2⟩ | h0
                · exact Or.inl ⟨p, hp, h1, h2⟩
                · exact Or.inr (Or.inl h0)
            · rcases mem_updateProc _ pid (setStateF ProcessState.Ready) p1 hp1 with
                hq3 | ⟨p2, hp2, _, rfl⟩
              · rcases hps1mem p1 hq3 with ⟨p, hp, h1, h2⟩ | h0
                · exact Or.inl ⟨p, hp, h1, h2⟩
                · exact Or.inr (Or.inl h0)
              · rcases hps1mem p2 hp2 with ⟨p, hp, h1, h2⟩ | h0
                · exact Or.inl ⟨p, hp, h1, h2⟩
                · exact Or.inr (Or.inl h0)
          · intro q _ hm
            rw [hsleep2]
            exact Or.inl hm
          · intro q _ hm
            rw [hready2]
            rw [hr] at hm
            exact Or.inr (List.mem_append_left _ hm)

lemma stop_preserves_sleepInv (s : RoundRobinScheduler) (hinv : sleepInv s) :
    ∀ reason res s2, s.stop reason = some (res, s2) → sleepInv s2 := by
  intro reason res s2 h
  cases reason with
  | Expired =>
    simp only [RoundRobinScheduler.stop] at h
    rcases hr : s.ready_queue with _ | ⟨pid, rest⟩
    · simp only [hr] at h
      injection h with h1
      injection h1 with h2 h3
      subst h3
      exact hinv
    · simp only [hr] at h
      rcases hfp : findProc s.processes pid with _ | p
      · rw [hfp] at h
        exact absurd h (by simp)
      · simp only [hfp] at h
        rcases hch : chargeOthersConst p.remaining
            (updateProc s.processes pid (expiredF p.remaining)) rest with _ | ps2
        · rw [hch] at h
          exact absurd h (by simp)
        · rw [hch] at h
          injection h with h1
          injection h1 with h2 h3
          subst h3
          refine sleepInv_transfer s _ ?_ ?_ ?_ hinv
          · intro q hq
            obtain ⟨p1, hp1, hq1, hq2⟩ :=
              mem_updateProc_nt ps2 pid (setRemainingF s.timeslice) (fun x => ⟨rfl, rfl⟩) q hq
            obtain ⟨p0, hp0, hq3, hq4⟩ :=
              chargeOthersConst_mem p.remaining rest _ ps2 hch p1 hp1
            obtain ⟨pp, hpp, hq5, hq6⟩ :=
              mem_updateProc_nt s.processes pid (expiredF p.remaining)
                (fun x => ⟨rfl, rfl⟩) p0 hp0
            exact Or.inl ⟨pp, hpp, (hq1.trans hq3).trans hq5, (hq2.trans hq4).trans hq6⟩
          · intro q _ hm
            exact Or.inl hm
          · intro q _ hm
            rw [hr] at hm
            rcases List.mem_cons.mp hm with hm | hm
            · exact Or.inr (List.mem_append_right _ (by simp [hm]))
            · exact Or.inr (List.mem_append_left _ hm)
  | Syscall sc rem =>
    cases sc with
    | Fork prio =>
      simp only [RoundRobinScheduler.stop] at h
      rcases hacc : syscallAccounting s rem with _ | s1
      · rw [hacc] at h
        exact absurd h (by simp)
      · simp only [hacc] at h
        obtain ⟨hready1, hsleep1, hmem1⟩ := syscallAccounting_mem s rem s1 hacc
        injection h with h1
        injection h1 with h2 h3
        subst h3
        refine sleepInv_transfer s _ ?_ ?_ ?_ hinv
        · intro q hq
          rcases List.mem_append.mp hq with hq | hq
          · exact Or.inl (hmem1 q hq)
          · rcases List.mem_singleton.mp hq with rfl
            exact Or.inr (Or.inl rfl)
        · intro q _ hm
          rw [← hsleep1] at hm
          exact Or.inl hm
        · intro q _ hm
          rw [← hready1] at hm
          exact Or.inr (List.mem_append_left _ hm)
    | Sleep amt =>
      simp only [RoundRobinScheduler.stop] at h
      rcases hacc : syscallAccounting s rem with _ | s1
      · rw [hacc] at h
        exact absurd h (by simp)
      · simp only [hacc] at h
        obtain ⟨hready1, hsleep1, hmem1⟩ := syscallAccounting_mem s rem s1 hacc
        rcases hrq1 : s1.ready_queue with _ | ⟨m, mrest⟩
        · simp only [hrq1] at h
          injection h with h1
          injection h1 with h2 h3
          subst h3
          refine sleepInv_transfer s _ ?_ ?_ ?_ hinv
          · intro q hq
            exact Or.inl (hmem1 q hq)
          · intro q _ hm
            rw [← hsleep1] at hm
            exact Or.inl hm
          · intro q _ hm
            rw [← hready1] at hm
            exact Or.inr hm
        · simp only [hrq1] at h
          rcases hfm : findProc s1.processes m with _ | pm
          · rw [hfm] at h
            exact absurd h (by simp)
          · simp only [hfm] at h
            injection h with h1
            injection h1 with h2 h3
            subst h3
            refine sleepInv_transfer s _ ?_ ?_ ?_ hinv
            · intro q hq
              rcases mem_updateProc s1.processes m (sleepF amt) q hq with hq2 | ⟨p1, _, hp1m, rfl⟩
              · exact Or.inl (hmem1 q hq2)
              · exact Or.inr (Or.inr (Or.inl (List.mem_append_right _ (by simp [sleepF, hp1m]))))
            · intro q _ hm
              rw [← hsleep1] at hm
              exact Or.inl (List.mem_append_left _ hm)
            · intro q _ hm
              rw [← hready1, hrq1] at hm
              rcases List.mem_cons.mp hm with hm | hm
              · exact Or.inl (List.mem_append_right _ (by simp [hm]))
              · exact Or.inr hm
    | Wait ev =>
      simp only [RoundRobinScheduler.stop] at h
      injection h with h1
      injection h1 with h2 h3
      subst h3
      exact hinv
    | Signal ev =>
      simp only [RoundRobinScheduler.stop] at h
      injection h with h1
      injection h1 with h2 h3
      subst h3
      exact hinv
    | Exit =>
      simp only [RoundRobinScheduler.stop] at h
      rcases hr : s.ready_queue with _ | ⟨pid, rest⟩
      · simp only [hr] at h
        injection h with h1
        injection h1 with h2 h3
        subst h3
        exact hinv
      · simp only [hr] at h
        rcases hfp : findProc s.processes pid with _ | p
        · rw [hfp] at h
          exact absurd h (by simp)
        · simp only [hfp] at h
          by_cases h1 : rem ≤ p.remaining
          · rw [if_pos h1] at h
            rcases hch : chargeOthersConst (p.remaining - rem) s.processes rest with _ | ps2
            · rw [hch] at h
              exact absurd h (by simp)
            · rw [hch] at h
              injection h with ha
              injection ha with hb hc2
              subst hc2
              refine sleepInv_transfer s _ ?_ ?_ ?_ hinv
              · intro q hq
                obtain ⟨hq2, _⟩ := List.mem_filter.mp hq
                obtain ⟨p0, hp0, hq3, hq4⟩ :=
                  chargeOthersConst_mem (p.remaining - rem) rest _ ps2 hch q hq2
                exact Or.inl ⟨p0, hp0, hq3, hq4⟩
              · intro q _ hm
                exact Or.inl hm
              · intro q hq hm
                obtain ⟨_, hcond⟩ := List.mem_filter.mp hq
                have hqp : q.pid ≠ pid := by simpa using hcond
                rw [hr] at hm
                rcases List.mem_cons.mp hm with hm | hm
                · exact absurd hm hqp
                · exact Or.inr hm
          · rw [if_neg h1] at h
            exact absurd h (by simp)

/-- C6 (amended): the direction that survives is: every process with
sleep_time > 0 is in the sleep queue or in the ready queue (a
woken-but-not-yet-restored process sits in the ready queue with positive
sleep_time).  This holds for a freshly constructed engine and is preserved
by every next() and stop() call, hence holds in every reachable state; the
claimed iff with the sleep queue alone fails right after a Sleep
decision. -/
theorem c6_sleep_invariant :
    (∀ ts mrt, sleepInv (RoundRobinScheduler.new ts mrt))
    ∧ ∀ s, sleepInv s →
        (∀ d s2, s.next = some (d, s2) → sleepInv s2)
        ∧ (∀ reason res s2, s.stop reason = some (res, s2) → sleepInv s2) := by
  refine ⟨?_, fun s hinv =>
    ⟨next_preserves_sleepInv s hinv, stop_preserves_sleepInv s hinv⟩⟩
  intro ts mrt p hp
  exact absurd hp (List.not_mem_nil p)

theorem c6_sleep_invariant_witness :
    sleepInv { processes := [⟨1, .Running, 0, (7, 1, 1), 2, 0, 2⟩],
               ready_queue := [1], sleep_queue := [], timeslice := 2,
               minimum_remaining_timeslice := 1, nr_processes := 1, time := 2 } :=
  (c6_sleep_invariant.2 c6S4 (by unfold sleepInv; decide)).1 (.Run 1 2)
    { processes := [⟨1, .Running, 0, (7, 1, 1), 2, 0, 2⟩],
      ready_queue := [1], sleep_queue := [], timeslice := 2,
      minimum_remaining_timeslice := 1, nr_processes := 1, time := 2 }
    (by decide)
